import Mathlib

universe u

/-!
# Verification of the fluxboard presence service

A shallow embedding, in Lean 4, of the parts of the
`presence-service` crate that the specification talks about:

* the binary wire protocol (`src/presence-service/src/protocol/messages.rs`):
  the eight-variant `BinaryMessage` sum type, `encode`, `decode`, and the
  `normalize_coord` / `denormalize_coord` coordinate helpers (the latter two
  modelled with exact IEEE-754 binary32 round-to-nearest-even semantics over
  `ℚ`);
* the room registry (`src/presence-service/src/connection/room.rs`):
  `Room::new`, `assign_user_id`, `release_user_id`, `add_user`, `remove_user`;
* the per-connection session registry
  (`src/presence-service/src/connection/session.rs`);
* the connection manager (`src/presence-service/src/connection/manager.rs`):
  `connect`, `disconnect`, `handle_join`, `handle_leave_internal`,
  `handle_cursor_update`, `broadcast_to_room`, modelled as pure functions from
  a manager state to a manager state plus a list of emitted outputs (local
  websocket sends and Redis publishes);
* the Redis channel naming and the subscription set installed by
  `start_redis_listener` (`src/presence-service/src/redis/pubsub.rs` and
  `manager.rs`).

Byte strings are modelled as `List ℕ` (each entry a byte value), Rust `String`s
as their UTF-8 byte lists, `HashMap`s as association lists whose insert
replaces every binding of the key, and `HashSet<u8>` as `Finset ℕ`.
-/

set_option allowUnsafeReducibility true in
attribute [semireducible] Rat.mul Rat.add Rat.sub Rat.inv Rat.div Rat.ofScientific

set_option exponentiation.threshold 4000
set_option maxRecDepth 8000

namespace Fluxboard

/-! ## Protocol: message type tags (`protocol/types.rs`) -/

def MSG_CURSOR_UPDATE : ℕ := 0x01
def MSG_CURSOR_BROADCAST : ℕ := 0x02
def MSG_JOIN : ℕ := 0x03
def MSG_LEAVE : ℕ := 0x04
def MSG_USER_JOINED : ℕ := 0x05
def MSG_USER_LEFT : ℕ := 0x06
def MSG_PRESENCE_UPDATE : ℕ := 0x07
def MSG_HEARTBEAT : ℕ := 0x08

def MAX_USERNAME_LENGTH : ℕ := 32

/-! ## Protocol: errors and messages (`protocol/messages.rs`) -/

/-- `ProtocolError` from `protocol/messages.rs`. -/
inductive ProtocolError where
  | unknownMessageType (tag : ℕ)
  | invalidLength (expected actual : ℕ)
  | invalidUtf8
  | usernameTooLong (len : ℕ)
  | bufferUnderflow
deriving DecidableEq, Repr

/-- `BinaryMessage` from `protocol/messages.rs`.  `u16` fields (`board_id`,
`x`, `y`) and `u8` fields (`user_id`, `count`) are modelled as `ℕ`; Rust
`String` usernames are modelled as their UTF-8 byte lists; the `[u8; 3]`
colour as a triple. -/
inductive BinaryMessage where
  | cursorUpdate (board_id x y : ℕ)
  | cursorBroadcast (board_id user_id x y : ℕ)
  | join (board_id : ℕ) (username : List ℕ)
  | leave (board_id : ℕ)
  | userJoined (board_id user_id : ℕ) (username : List ℕ) (color : ℕ × ℕ × ℕ)
  | userLeft (board_id user_id : ℕ)
  | presenceUpdate (board_id count : ℕ)
  | heartbeat
deriving DecidableEq, Repr

/-- Big-endian bytes of a `u16`, as written by `u16::to_be_bytes`. -/
def u16be (v : ℕ) : List ℕ := [v / 256, v % 256]

/-- `BinaryMessage::encode` (`messages.rs` lines 127–197).  The username length
prefix is written with `username_bytes.len() as u8`, i.e. reduced mod 256. -/
def BinaryMessage.encode : BinaryMessage → List ℕ
  | .cursorUpdate board_id x y =>
      MSG_CURSOR_UPDATE :: (u16be board_id ++ u16be x ++ u16be y)
  | .cursorBroadcast board_id user_id x y =>
      MSG_CURSOR_BROADCAST :: (u16be board_id ++ [user_id] ++ u16be x ++ u16be y)
  | .join board_id username =>
      MSG_JOIN :: (u16be board_id ++ [username.length % 256] ++ username)
  | .leave board_id =>
      MSG_LEAVE :: u16be board_id
  | .userJoined board_id user_id username color =>
      MSG_USER_JOINED :: (u16be board_id ++ [user_id] ++ [username.length % 256]
        ++ username ++ [color.1, color.2.1, color.2.2])
  | .userLeft board_id user_id =>
      MSG_USER_LEFT :: (u16be board_id ++ [user_id])
  | .presenceUpdate board_id count =>
      MSG_PRESENCE_UPDATE :: (u16be board_id ++ [count])
  | .heartbeat => [MSG_HEARTBEAT]

/-! ### UTF-8 validation

Rust's `String::from_utf8` accepts exactly well-formed UTF-8 (RFC 3629):
1-byte `00–7F`; 2-byte `C2–DF` + continuation; 3-byte `E0 A0–BF`,
`E1–EC 80–BF`, `ED 80–9F` (no surrogates), `EE–EF 80–BF`, each followed by one
more continuation byte; 4-byte `F0 90–BF`, `F1–F3 80–BF`, `F4 80–8F`, each
followed by two more continuation bytes.  Continuation bytes are `80–BF`. -/

/-- A UTF-8 continuation byte (`0x80–0xBF`). -/
def utf8Cont (b : ℕ) : Bool := 128 ≤ b && b < 192

/-- Admissible second byte of a three-byte sequence with lead byte `b`. -/
def utf8Snd3 (b c : ℕ) : Bool :=
  if b = 224 then 160 ≤ c && c < 192
  else if b = 237 then 128 ≤ c && c < 160
  else utf8Cont c

/-- Admissible second byte of a four-byte sequence with lead byte `b`. -/
def utf8Snd4 (b c : ℕ) : Bool :=
  if b = 240 then 144 ≤ c && c < 192
  else if b = 244 then 128 ≤ c && c < 144
  else utf8Cont c

/-- Well-formed UTF-8 byte list, as accepted by `String::from_utf8`. -/
def isValidUtf8 : List ℕ → Bool
  | [] => true
  | b :: rest =>
    if b < 128 then isValidUtf8 rest
    else if b < 194 then false
    else if b < 224 then
      match rest with
      | c1 :: r => utf8Cont c1 && isValidUtf8 r
      | [] => false
    else if b < 240 then
      match rest with
      | c1 :: c2 :: r => utf8Snd3 b c1 && utf8Cont c2 && isValidUtf8 r
      | _ => false
    else if b < 245 then
      match rest with
      | c1 :: c2 :: c3 :: r => utf8Snd4 b c1 && utf8Cont c2 && utf8Cont c3 && isValidUtf8 r
      | _ => false
    else false

/-! ### Cursor-style readers (`messages.rs` lines 363–405)

The Rust decoder drives a `Cursor` over the input slice; each helper consumes
bytes from the front.  We model the cursor position by passing along the
not-yet-consumed suffix. -/

/-- `read_u8`: one byte, or `BufferUnderflow`. -/
def read_u8 : List ℕ → Except ProtocolError (ℕ × List ℕ)
  | [] => .error .bufferUnderflow
  | b :: rest => .ok (b, rest)

/-- `read_u16`: two bytes, big-endian. -/
def read_u16 : List ℕ → Except ProtocolError (ℕ × List ℕ)
  | b1 :: b2 :: rest => .ok (b1 * 256 + b2, rest)
  | _ => .error .bufferUnderflow

/-- `read_color`: three bytes. -/
def read_color : List ℕ → Except ProtocolError ((ℕ × ℕ × ℕ) × List ℕ)
  | r :: g :: b :: rest => .ok ((r, g, b), rest)
  | _ => .error .bufferUnderflow

/-- `read_string`: a 1-byte length prefix, the length bound check, a
`read_exact` of that many bytes, then `String::from_utf8` validation. -/
def read_string (data : List ℕ) (maxLength : ℕ) :
    Except ProtocolError (List ℕ × List ℕ) := do
  let (length, rest) ← read_u8 data
  if length > maxLength then
    .error (.usernameTooLong length)
  else if rest.length < length then
    .error .bufferUnderflow
  else
    let s := rest.take length
    if isValidUtf8 s then .ok (s, rest.drop length)
    else .error .invalidUtf8

/-- `BinaryMessage::decode` (`messages.rs` lines 219–357).  The length guards
compare against the length of the whole input (`data.len()`); reads then
proceed from the byte after the tag. -/
def BinaryMessage.decode (data : List ℕ) : Except ProtocolError BinaryMessage :=
  match data with
  | [] => .error .bufferUnderflow
  | msg_type :: rest =>
    if msg_type = MSG_CURSOR_UPDATE then
      if rest.length + 1 ≠ 7 then .error (.invalidLength 7 (rest.length + 1))
      else do
        let (board_id, r) ← read_u16 rest
        let (x, r) ← read_u16 r
        let (y, _) ← read_u16 r
        .ok (.cursorUpdate board_id x y)
    else if msg_type = MSG_CURSOR_BROADCAST then
      if rest.length + 1 ≠ 8 then .error (.invalidLength 8 (rest.length + 1))
      else do
        let (board_id, r) ← read_u16 rest
        let (user_id, r) ← read_u8 r
        let (x, r) ← read_u16 r
        let (y, _) ← read_u16 r
        .ok (.cursorBroadcast board_id user_id x y)
    else if msg_type = MSG_JOIN then
      if rest.length + 1 < 4 then .error (.invalidLength 4 (rest.length + 1))
      else do
        let (board_id, r) ← read_u16 rest
        let (username, _) ← read_string r MAX_USERNAME_LENGTH
        .ok (.join board_id username)
    else if msg_type = MSG_LEAVE then
      if rest.length + 1 ≠ 3 then .error (.invalidLength 3 (rest.length + 1))
      else do
        let (board_id, _) ← read_u16 rest
        .ok (.leave board_id)
    else if msg_type = MSG_USER_JOINED then
      if rest.length + 1 < 8 then .error (.invalidLength 8 (rest.length + 1))
      else do
        let (board_id, r) ← read_u16 rest
        let (user_id, r) ← read_u8 r
        let (username, r) ← read_string r MAX_USERNAME_LENGTH
        let (color, _) ← read_color r
        .ok (.userJoined board_id user_id username color)
    else if msg_type = MSG_USER_LEFT then
      if rest.length + 1 ≠ 4 then .error (.invalidLength 4 (rest.length + 1))
      else do
        let (board_id, r) ← read_u16 rest
        let (user_id, _) ← read_u8 r
        .ok (.userLeft board_id user_id)
    else if msg_type = MSG_PRESENCE_UPDATE then
      if rest.length + 1 ≠ 4 then .error (.invalidLength 4 (rest.length + 1))
      else do
        let (board_id, r) ← read_u16 rest
        let (count, _) ← read_u8 r
        .ok (.presenceUpdate board_id count)
    else if msg_type = MSG_HEARTBEAT then
      if rest.length + 1 ≠ 1 then .error (.invalidLength 1 (rest.length + 1))
      else .ok .heartbeat
    else .error (.unknownMessageType msg_type)

/-- Validity of a message value: the bounds the Rust types `u16`/`u8` impose on
the numeric fields, byte-hood of username bytes, plus the two facts the Rust
`String` type and the protocol limit guarantee for usernames: well-formed
UTF-8 and at most `MAX_USERNAME_LENGTH` bytes. -/
def wfMessage : BinaryMessage → Prop
  | .cursorUpdate b x y => b < 65536 ∧ x < 65536 ∧ y < 65536
  | .cursorBroadcast b u x y => b < 65536 ∧ u < 256 ∧ x < 65536 ∧ y < 65536
  | .join b s => b < 65536 ∧ s.length ≤ MAX_USERNAME_LENGTH ∧
      (∀ c ∈ s, c < 256) ∧ isValidUtf8 s = true
  | .leave b => b < 65536
  | .userJoined b u s c => b < 65536 ∧ u < 256 ∧
      s.length ≤ MAX_USERNAME_LENGTH ∧ (∀ x ∈ s, x < 256) ∧ isValidUtf8 s = true ∧
      c.1 < 256 ∧ c.2.1 < 256 ∧ c.2.2 < 256
  | .userLeft b u => b < 65536 ∧ u < 256
  | .presenceUpdate b c => b < 65536 ∧ c < 256
  | .heartbeat => True

instance : DecidablePred wfMessage := by
  intro m
  cases m <;> simp only [wfMessage] <;> infer_instance


instance : DecidableEq (Except ProtocolError BinaryMessage) := fun a b =>
  match a, b with
  | .ok x, .ok y => decidable_of_iff (x = y) (by simp)
  | .error e, .error f => decidable_of_iff (e = f) (by simp)
  | .ok _, .error _ => isFalse (by simp)
  | .error _, .ok _ => isFalse (by simp)

/-- C1: decoding the encoding of any valid message returns it unchanged. -/
theorem decode_encode_eq_ok (m : BinaryMessage) (h : wfMessage m) :
    BinaryMessage.decode m.encode = .ok m := by
  cases m with
  | cursorUpdate b x y =>
      simp [BinaryMessage.encode, u16be, BinaryMessage.decode, Except.instMonad, Except.bind, Bind.bind, read_u16,
        MSG_CURSOR_UPDATE]
      omega
  | cursorBroadcast b u x y =>
      simp [BinaryMessage.encode, u16be, BinaryMessage.decode, Except.instMonad, Except.bind, Bind.bind, read_u16, read_u8,
        MSG_CURSOR_UPDATE, MSG_CURSOR_BROADCAST]
      omega
  | join b s =>
      obtain ⟨hb, hs32, hsb, hsv⟩ := h
      have hs32' : s.length ≤ 32 := hs32
      have hmod : s.length % 256 = s.length := Nat.mod_eq_of_lt (by omega)
      simp [BinaryMessage.encode, u16be, BinaryMessage.decode, Except.instMonad, Except.bind, Bind.bind, read_u16, read_u8,
        read_string, MSG_CURSOR_UPDATE, MSG_CURSOR_BROADCAST, MSG_JOIN,
        hmod, hsv]
      have h4 : ¬ (s.length + 1 + 1 + 1 + 1 < 4) := by omega
      have h32 : ¬ (MAX_USERNAME_LENGTH < s.length) := by simp only [MAX_USERNAME_LENGTH]; omega
      simp [h4, h32]
      omega
  | leave b =>
      simp [BinaryMessage.encode, u16be, BinaryMessage.decode, Except.instMonad, Except.bind, Bind.bind, read_u16,
        MSG_CURSOR_UPDATE, MSG_CURSOR_BROADCAST, MSG_JOIN, MSG_LEAVE]
      omega
  | userJoined b u s c =>
      obtain ⟨hb, hu, hs32, hsb, hsv, hc⟩ := h
      have hs32' : s.length ≤ 32 := hs32
      have hmod : s.length % 256 = s.length := Nat.mod_eq_of_lt (by omega)
      have htake : (s ++ [c.1, c.2.1, c.2.2]).take s.length = s :=
        List.take_left s [c.1, c.2.1, c.2.2]
      have hdrop : (s ++ [c.1, c.2.1, c.2.2]).drop s.length = [c.1, c.2.1, c.2.2] :=
        List.drop_left s [c.1, c.2.1, c.2.2]
      simp [BinaryMessage.encode, u16be, BinaryMessage.decode, Except.instMonad, Except.bind, Bind.bind, read_u16, read_u8,
        read_string, read_color, MSG_CURSOR_UPDATE, MSG_CURSOR_BROADCAST, MSG_JOIN,
        MSG_LEAVE, MSG_USER_JOINED, hmod, htake, hdrop, hsv]
      have h8 : ¬ (s.length + 3 + 1 + 1 + 1 + 1 + 1 < 8) := by omega
      have h32 : ¬ (MAX_USERNAME_LENGTH < s.length) := by simp only [MAX_USERNAME_LENGTH]; omega
      simp [h8, h32]
      omega
  | userLeft b u =>
      simp [BinaryMessage.encode, u16be, BinaryMessage.decode, Except.instMonad, Except.bind, Bind.bind, read_u16, read_u8,
        MSG_CURSOR_UPDATE, MSG_CURSOR_BROADCAST, MSG_JOIN, MSG_LEAVE,
        MSG_USER_JOINED, MSG_USER_LEFT]
      omega
  | presenceUpdate b cnt =>
      simp [BinaryMessage.encode, u16be, BinaryMessage.decode, Except.instMonad, Except.bind, Bind.bind, read_u16, read_u8,
        MSG_CURSOR_UPDATE, MSG_CURSOR_BROADCAST, MSG_JOIN, MSG_LEAVE,
        MSG_USER_JOINED, MSG_USER_LEFT, MSG_PRESENCE_UPDATE]
      omega
  | heartbeat =>
      simp [BinaryMessage.encode, BinaryMessage.decode, Except.instMonad, Except.bind, Bind.bind, MSG_CURSOR_UPDATE,
        MSG_CURSOR_BROADCAST, MSG_JOIN, MSG_LEAVE, MSG_USER_JOINED, MSG_USER_LEFT,
        MSG_PRESENCE_UPDATE, MSG_HEARTBEAT]

/-- Byte string of the S1 scenario Join frame: board 42, username "Alice". -/
def joinAliceBytes : List ℕ := [0x03, 0x00, 0x2A, 0x05, 0x41, 0x6C, 0x69, 0x63, 0x65]

/-- C1 witness: the concrete Join frame for board 42 and username "Alice"
round-trips. -/
theorem decode_encode_eq_ok_witness :
    wfMessage (.join 42 [0x41, 0x6C, 0x69, 0x63, 0x65]) ∧
      BinaryMessage.decode (BinaryMessage.encode (.join 42 [0x41, 0x6C, 0x69, 0x63, 0x65])) =
        .ok (.join 42 [0x41, 0x6C, 0x69, 0x63, 0x65]) :=
  ⟨by decide, decode_encode_eq_ok _ (by decide)⟩

/-- C10: for the variable-length variants Join (0x03) and UserJoined (0x05),
the decoder never compares the input length against the length implied by the
username-length byte, so trailing bytes are ignored: two inputs of different
lengths decode to `Ok` of the same message, for each of the two variants. -/
theorem decode_ignores_trailing_bytes :
    BinaryMessage.decode [0x03, 0x00, 0x01, 0x01, 0x41] = .ok (.join 1 [0x41]) ∧
    BinaryMessage.decode [0x03, 0x00, 0x01, 0x01, 0x41, 0x63] = .ok (.join 1 [0x41]) ∧
    ([0x03, 0x00, 0x01, 0x01, 0x41] : List ℕ).length ≠
      ([0x03, 0x00, 0x01, 0x01, 0x41, 0x63] : List ℕ).length ∧
    BinaryMessage.decode [0x05, 0x00, 0x01, 0x02, 0x01, 0x41, 0x0A, 0x0B, 0x0C] =
      .ok (.userJoined 1 2 [0x41] (10, 11, 12)) ∧
    BinaryMessage.decode [0x05, 0x00, 0x01, 0x02, 0x01, 0x41, 0x0A, 0x0B, 0x0C, 0x63] =
      .ok (.userJoined 1 2 [0x41] (10, 11, 12)) ∧
    ([0x05, 0x00, 0x01, 0x02, 0x01, 0x41, 0x0A, 0x0B, 0x0C] : List ℕ).length ≠
      ([0x05, 0x00, 0x01, 0x02, 0x01, 0x41, 0x0A, 0x0B, 0x0C, 0x63] : List ℕ).length :=
  ⟨rfl, rfl, by decide, rfl, rfl, by decide⟩



/-- Force a `ℕ` to a literal before sharing it (a reused argument is then
evaluated once during kernel reduction). -/
def seqNat {α : Type u} (n : ℕ) (k : ℕ → α) : α :=
  match n with
  | 0 => k 0
  | m + 1 => k (m + 1)

/-- Exponent bias of the embedding (cf. the biased exponents of IEEE-754
itself): the pair `(m, E)` denotes the value `m · 2^(E - f32bias - 23)`. -/
def f32bias : ℕ := 1000

/-- A nonnegative finite binary32 value: mantissa and biased exponent.
`(m, E)` denotes `m · 2^(E - f32bias - 23)`; normalised values have
`m ∈ [2²³, 2²⁴)`, zero is `(0, 0)`. -/
def F32 : Type := ℕ × ℕ

/-- Final step of `natLog2`: one remaining bit of the exponent. -/
def log2h1 (n l : ℕ) : ℕ := cond (Nat.ble 2 n) (l + 1) l

/-- Two remaining bits of the exponent. -/
def log2h2 (n l : ℕ) : ℕ :=
  cond (Nat.ble 4 n) (log2h1 (n / 4) (l + 2)) (log2h1 n l)

/-- Four remaining bits of the exponent. -/
def log2h4 (n l : ℕ) : ℕ :=
  cond (Nat.ble 16 n) (log2h2 (n / 16) (l + 4)) (log2h2 n l)

/-- Eight remaining bits of the exponent. -/
def log2h8 (n l : ℕ) : ℕ :=
  cond (Nat.ble 256 n) (log2h4 (n / 256) (l + 8)) (log2h4 n l)

/-- Sixteen remaining bits of the exponent. -/
def log2h16 (n l : ℕ) : ℕ :=
  cond (Nat.ble 65536 n) (log2h8 (n / 65536) (l + 16)) (log2h8 n l)

/-- `⌊log₂ n⌋` for `0 < n < 2⁶⁴` (and `0` at `0`), by binary search with
static thresholds, halving the argument as it narrows (the library
`Nat.log2` is defined by well-founded recursion and does not evaluate inside
the kernel). -/
def natLog2 (n : ℕ) : ℕ :=
  cond (Nat.ble 4294967296 n) (log2h16 (n / 4294967296) 32) (log2h16 n 0)

/-- Round `a / b` (`b > 0`) to the nearest integer, ties to even
(the IEEE-754 default rounding applied to an exact quotient). -/
def rneDiv (a b : ℕ) : ℕ :=
  seqNat (a / b) fun q =>
  seqNat (2 * (a % b)) fun r2 =>
    cond (Nat.blt r2 b) q
      (cond (Nat.blt b r2) (q + 1)
        (cond (Nat.beq (q % 2) 0) q (q + 1)))

/-- Round the positive integer `N < 2⁶⁴` to 24 significant bits,
round-to-nearest ties-to-even: the result `(m, E)` satisfies
`m · 2^(E - f32bias - 23) = RNE₂₄(N)` and `m ∈ [2²³, 2²⁴)`.  This is the
binary32 rounding of an exact integer (the identity whenever `N < 2²⁵`). -/
def roundNat (N : ℕ) : F32 :=
  seqNat N fun N =>
  seqNat (natLog2 N) fun l =>
    cond (Nat.ble l 23)
      (N * 2 ^ (23 - l), f32bias + l)
      (seqNat (rneDiv N (2 ^ (l - 23))) fun m =>
        cond (Nat.beq m (2 ^ 24))
          (2 ^ 23, f32bias + l + 1)
          (m, f32bias + l))

/-- Exact comparison of two `F32` values (`f32` `<` on finite values). -/
def ltF32 (a b : F32) : Bool :=
  match a, b with
  | (ma, Ea), (mb, Eb) =>
    cond (Nat.ble Ea Eb)
      (Nat.blt ma (mb * 2 ^ (Eb - Ea)))
      (Nat.blt (ma * 2 ^ (Ea - Eb)) mb)

/-- `f32::clamp(self, lo, hi)` (`lo ≤ hi`, values finite): `lo` if the value
is below `lo`, `hi` if above `hi`, else the value itself; exact. -/
def clampF32 (v lo hi : F32) : F32 :=
  cond (ltF32 v lo) lo (cond (ltF32 hi v) hi v)

/-- IEEE-754 binary32 multiplication of nonnegative finite normalised-or-zero
values: the product of two 24-bit mantissas is a 47- or 48-bit integer, so one
comparison normalises it; the 24-bit RNE rounding may carry to `2²⁴`, which
renormalises with one more exponent step.  Bit-for-bit the rounding of the
exact product. -/
def mulF32 (a b : F32) : F32 :=
  match a, b with
  | (ma, Ea), (mb, Eb) =>
    seqNat (ma * mb) fun P =>
      cond (Nat.beq P 0) (0, 0)
        (cond (Nat.ble (2 ^ 47) P)
          (seqNat (rneDiv P (2 ^ 24)) fun m =>
            cond (Nat.beq m (2 ^ 24))
              (2 ^ 23, Ea + Eb + 2 - f32bias)
              (m, Ea + Eb + 1 - f32bias))
          (seqNat (rneDiv P (2 ^ 23)) fun m =>
            cond (Nat.beq m (2 ^ 24))
              (2 ^ 23, Ea + Eb + 1 - f32bias)
              (m, Ea + Eb - f32bias)))

/-- IEEE-754 binary32 division of nonnegative finite normalised-or-zero values
(`b` normalised): the quotient of two 24-bit mantissas lies in `(1/2, 2)`, so
one mantissa comparison fixes the result exponent; the mantissa is the RNE
rounding of the suitably shifted integer quotient, with a carry step when it
rounds up to `2²⁴`.  Bit-for-bit the rounding of the exact quotient. -/
def divF32 (a b : F32) : F32 :=
  match a, b with
  | (ma, Ea), (mb, Eb) =>
    cond (Nat.beq ma 0) (0, 0)
      (cond (Nat.ble mb ma)
        (seqNat (rneDiv (ma * 2 ^ 23) mb) fun m =>
          cond (Nat.beq m (2 ^ 24))
            (2 ^ 23, Ea + f32bias - Eb + 1)
            (m, Ea + f32bias - Eb))
        (seqNat (rneDiv (ma * 2 ^ 24) mb) fun m =>
          cond (Nat.beq m (2 ^ 24))
            (2 ^ 23, Ea + f32bias - Eb)
            (m, Ea + f32bias - Eb - 1)))

/-- The `f32` constant `0.0`. -/
def f32zero : F32 := (0, 0)

/-- The `f32` constant `1.0` (`= 2²³ · 2^(-23)`). -/
def f32one : F32 := (2 ^ 23, f32bias)

/-- The `f32` constant `65535.0` (`= 16776960 · 2^(15 - 23)`, exactly
representable). -/
def f32c65535 : F32 := (16776960, f32bias + 15)

/-- `n as f32` (RNE conversion; exact for every `u16` since `65535 < 2²⁴`). -/
def natToF32 (n : ℕ) : F32 :=
  cond (Nat.beq n 0) (0, 0) (roundNat n)

/-- The Rust cast `v as u16` on a nonnegative finite `f32` value: truncate
toward zero, saturating to `65535`. -/
def f32_as_u16 (v : F32) : ℕ :=
  match v with
  | (m, E) =>
    seqNat
      (cond (Nat.ble (f32bias + 23) E)
        (m * 2 ^ (E - (f32bias + 23)))
        (m / 2 ^ (f32bias + 23 - E))) fun t =>
      cond (Nat.ble t 65535) t 65535

/-- `normalize_coord` (`messages.rs` lines 430–434):
`(coord.clamp(0.0, 1.0) * 65535.0) as u16`. -/
def normalize_coord (coord : F32) : ℕ :=
  f32_as_u16 (mulF32 (clampF32 coord f32zero f32one) f32c65535)

/-- `denormalize_coord` (`messages.rs` lines 456–458):
`coord as f32 / 65535.0`. -/
def denormalize_coord (coord : ℕ) : F32 :=
  divF32 (natToF32 coord) f32c65535

/-- One instance of the u16 → f32 → u16 round trip. -/
def coordRoundtripOK (n : ℕ) : Bool :=
  Nat.beq (normalize_coord (denormalize_coord n)) n

/-- Check `coordRoundtripOK` on `[lo, lo + n)` by binary splitting (the
splitting keeps the kernel's reduction stack logarithmic). -/
def coordCheckRange (fuel : ℕ) : ℕ → ℕ → Bool :=
  Nat.rec (motive := fun _ => ℕ → ℕ → Bool)
    (fun lo n => cond (Nat.beq n 0) true (coordRoundtripOK lo))
    (fun _ ih lo n =>
      cond (Nat.ble n 1) (cond (Nat.beq n 0) true (coordRoundtripOK lo))
        (cond (ih lo (n / 2))
          (ih (lo + n / 2) (n - n / 2)) false))
    fuel


theorem coordCheckRange_zero (lo n : ℕ) :
    coordCheckRange 0 lo n = cond (Nat.beq n 0) true (coordRoundtripOK lo) := rfl

theorem coordCheckRange_succ (fuel lo n : ℕ) :
    coordCheckRange (fuel + 1) lo n =
      cond (Nat.ble n 1) (cond (Nat.beq n 0) true (coordRoundtripOK lo))
        (cond (coordCheckRange fuel lo (n / 2))
          (coordCheckRange fuel (lo + n / 2) (n - n / 2))
          false) := rfl

/-- A passed binary-split check certifies every index of its range. -/
theorem coordCheckRange_spec : ∀ fuel lo n, n ≤ 2 ^ fuel →
    coordCheckRange fuel lo n = true →
    ∀ i, i < n → coordRoundtripOK (lo + i) = true := by
  intro fuel
  induction fuel with
  | zero =>
    intro lo n hn h i hi
    rw [coordCheckRange_zero] at h
    rcases hn0 : Nat.beq n 0 with _ | _
    · rw [hn0, cond_false] at h
      have hn1 : n = 1 := by
        have := Nat.ne_of_beq_eq_false hn0
        simp at hn
        omega
      have hi0 : i = 0 := by omega
      simpa [hi0] using h
    · have := Nat.eq_of_beq_eq_true hn0
      omega
  | succ fuel ih =>
    intro lo n hn h i hi
    rw [coordCheckRange_succ] at h
    rcases hble : Nat.ble n 1 with _ | _
    · rw [hble, cond_false] at h
      have hn2 : 2 ≤ n := by
        rcases Nat.lt_or_ge n 2 with hlt | hge
        · exfalso
          have hbt : Nat.ble n 1 = true := by rw [Nat.ble_eq]; omega
          rw [hbt] at hble
          exact absurd hble (by simp)
        · exact hge
      have hp : n / 2 ≤ 2 ^ fuel ∧ n - n / 2 ≤ 2 ^ fuel := by
        rw [pow_succ] at hn
        omega
      rcases hA : coordCheckRange fuel lo (n / 2) with _ | _
      · rw [hA, cond_false] at h
        exact absurd h (by simp)
      · rw [hA, cond_true] at h
        by_cases hcase : i < n / 2
        · exact ih lo (n / 2) hp.1 hA i hcase
        · have h2 := ih (lo + n / 2) (n - n / 2) hp.2 h (i - n / 2) (by omega)
          have heq : lo + n / 2 + (i - n / 2) = lo + i := by omega
          rwa [heq] at h2
    · rw [hble, cond_true] at h
      have hn1 : n ≤ 1 := Nat.le_of_ble_eq_true hble
      rcases hn0 : Nat.beq n 0 with _ | _
      · rw [hn0, cond_false] at h
        have := Nat.ne_of_beq_eq_false hn0
        have hi0 : i = 0 := by omega
        simpa [hi0] using h
      · have := Nat.eq_of_beq_eq_true hn0
        omega

/-- Membership form of `coordCheckRange_spec`. -/
theorem coordCheckRange_cover (fuel lo size n : ℕ) (hsz : size ≤ 2 ^ fuel)
    (h : coordCheckRange fuel lo size = true) (hlo : lo ≤ n) (hn : n < lo + size) :
    coordRoundtripOK n = true := by
  have := coordCheckRange_spec fuel lo size hsz h (n - lo) (by omega)
  rwa [show lo + (n - lo) = n by omega] at this

/-! ### Rational value of an `F32` and the claims of §4.1 about
`normalize_coord` -/

/-- Power of two as a rational, for `k : ℤ`. -/
def qpow2 (k : ℤ) : ℚ :=
  if 0 ≤ k then ((2 ^ k.toNat : ℕ) : ℚ) else 1 / ((2 ^ (-k).toNat : ℕ) : ℚ)

/-- The rational value denoted by an `F32`. -/
def F32.toRat (v : F32) : ℚ := (v.1 : ℚ) * qpow2 ((v.2 : ℤ) - (f32bias + 23))

/-- Well-formed nonnegative finite binary32: zero (canonically `(0, 0)`),
a normalised value (exponent in `[-126, 127]`, biased here by `f32bias`), or
a subnormal value. -/
def wfF32 (v : F32) : Prop :=
  (v.1 = 0 ∧ v.2 = 0) ∨
  (2 ^ 23 ≤ v.1 ∧ v.1 < 2 ^ 24 ∧ f32bias - 126 ≤ v.2 ∧ v.2 ≤ f32bias + 127) ∨
  (0 < v.1 ∧ v.1 < 2 ^ 23 ∧ v.2 = f32bias - 126)

instance : DecidablePred wfF32 := by
  intro v
  unfold wfF32
  infer_instance

theorem qpow2_eq_zpow (k : ℤ) : qpow2 k = (2 : ℚ) ^ k := by
  unfold qpow2
  split
  · rename_i h
    push_cast
    rw [← zpow_natCast]
    congr 1
    omega
  · rename_i h
    push_cast
    rw [← zpow_natCast, one_div, ← zpow_neg]
    congr 1
    omega

theorem qpow2_pos (k : ℤ) : 0 < qpow2 k := by
  rw [qpow2_eq_zpow]
  positivity

/-- `ltF32` computes the strict order of denoted values. -/
theorem ltF32_iff (a b : F32) : ltF32 a b = true ↔ F32.toRat a < F32.toRat b := by
  rcases a with ⟨ma, Ea⟩
  rcases b with ⟨mb, Eb⟩
  unfold ltF32 F32.toRat
  simp only
  have h2 : (0 : ℚ) < 2 := by norm_num
  rcases hb : Nat.ble Ea Eb with _ | _
  · have hlt : Eb < Ea := by
      rcases Nat.lt_or_ge Eb Ea with h | h
      · exact h
      · exfalso
        have : Nat.ble Ea Eb = true := by rw [Nat.ble_eq]; omega
        rw [this] at hb
        exact absurd hb (by simp)
    simp only [cond_false]
    rw [Nat.blt_eq]
    rw [qpow2_eq_zpow, qpow2_eq_zpow]
    constructor
    · intro h
      calc (ma : ℚ) * (2:ℚ) ^ ((Ea : ℤ) - (f32bias + 23))
          = ((ma * 2 ^ (Ea - Eb) : ℕ) : ℚ) * (2:ℚ) ^ ((Eb : ℤ) - (f32bias + 23)) := by
            push_cast
            rw [mul_assoc, ← zpow_natCast (2:ℚ) (Ea - Eb), ← zpow_add₀ (by norm_num : (2:ℚ) ≠ 0)]
            congr 2
            omega
        _ < (mb : ℚ) * (2:ℚ) ^ ((Eb : ℤ) - (f32bias + 23)) := by
            apply mul_lt_mul_of_pos_right _ (by positivity)
            exact_mod_cast h
    · intro h
      have h' : ((ma * 2 ^ (Ea - Eb) : ℕ) : ℚ) < (mb : ℚ) := by
        have hrw : ((ma * 2 ^ (Ea - Eb) : ℕ) : ℚ) * (2:ℚ) ^ ((Eb : ℤ) - (f32bias + 23))
            = (ma : ℚ) * (2:ℚ) ^ ((Ea : ℤ) - (f32bias + 23)) := by
          push_cast
          rw [mul_assoc, ← zpow_natCast (2:ℚ) (Ea - Eb), ← zpow_add₀ (by norm_num : (2:ℚ) ≠ 0)]
          congr 2
          omega
        have := mul_lt_mul_of_pos_right
          (a := ((ma * 2 ^ (Ea - Eb) : ℕ) : ℚ)) (b := (mb : ℚ))
          (c := (2:ℚ) ^ ((Eb : ℤ) - (f32bias + 23)))
        by_contra hc
        push_neg at hc
        have hge := mul_le_mul_of_nonneg_right hc (by positivity : (0:ℚ) ≤ (2:ℚ) ^ ((Eb : ℤ) - (f32bias + 23)))
        rw [hrw] at hge
        exact absurd h (not_lt.mpr hge)
      exact_mod_cast h'
  · have hle : Ea ≤ Eb := Nat.le_of_ble_eq_true hb
    simp only [cond_true]
    rw [Nat.blt_eq]
    rw [qpow2_eq_zpow, qpow2_eq_zpow]
    constructor
    · intro h
      have h' : (ma : ℚ) < ((mb * 2 ^ (Eb - Ea) : ℕ) : ℚ) := by exact_mod_cast h
      calc (ma : ℚ) * (2:ℚ) ^ ((Ea : ℤ) - (f32bias + 23))
          < ((mb * 2 ^ (Eb - Ea) : ℕ) : ℚ) * (2:ℚ) ^ ((Ea : ℤ) - (f32bias + 23)) := by
            apply mul_lt_mul_of_pos_right h' (by positivity)
        _ = (mb : ℚ) * (2:ℚ) ^ ((Eb : ℤ) - (f32bias + 23)) := by
            push_cast
            rw [mul_assoc, ← zpow_natCast (2:ℚ) (Eb - Ea), ← zpow_add₀ (by norm_num : (2:ℚ) ≠ 0)]
            congr 2
            omega
    · intro h
      have hrw : ((mb * 2 ^ (Eb - Ea) : ℕ) : ℚ) * (2:ℚ) ^ ((Ea : ℤ) - (f32bias + 23))
          = (mb : ℚ) * (2:ℚ) ^ ((Eb : ℤ) - (f32bias + 23)) := by
        push_cast
        rw [mul_assoc, ← zpow_natCast (2:ℚ) (Eb - Ea), ← zpow_add₀ (by norm_num : (2:ℚ) ≠ 0)]
        congr 2
        omega
      have h' : (ma : ℚ) < ((mb * 2 ^ (Eb - Ea) : ℕ) : ℚ) := by
        by_contra hc
        push_neg at hc
        have hge := mul_le_mul_of_nonneg_right hc (by positivity : (0:ℚ) ≤ (2:ℚ) ^ ((Ea : ℤ) - (f32bias + 23)))
        rw [hrw] at hge
        exact absurd h (not_lt.mpr hge)
      exact_mod_cast h'
theorem seqNat_eq {α : Type u} (n : ℕ) (k : ℕ → α) : seqNat n k = k n := by
  cases n <;> rfl

theorem cond_ble_eq_min (t c : ℕ) : cond (Nat.ble t c) t c = min t c := by
  rcases h : Nat.ble t c with _ | _
  · have hgt : c < t := by
      rcases Nat.lt_or_ge c t with h1 | h1
      · exact h1
      · exfalso
        have hb : Nat.ble t c = true := by rw [Nat.ble_eq]; omega
        rw [hb] at h
        exact absurd h (by simp)
    rw [cond_false, Nat.min_def, if_neg (by omega)]
  · have hle : t ≤ c := Nat.le_of_ble_eq_true h
    rw [cond_true, Nat.min_def, if_pos hle]

/-- `toRat` of a positive-mantissa value is positive. -/
theorem toRat_pos (v : F32) (h : 0 < v.1) : 0 < F32.toRat v := by
  unfold F32.toRat
  have h1 := qpow2_pos ((v.2 : ℤ) - (f32bias + 23))
  have h2 : (0:ℚ) < (v.1 : ℚ) := by exact_mod_cast h
  positivity

/-- Among well-formed values, only `(2²³, f32bias)` denotes `1`. -/
theorem toRat_eq_one (v : F32) (hwf : wfF32 v) (h1 : F32.toRat v = 1) : v = f32one := by
  rcases v with ⟨m, E⟩
  unfold F32.toRat at h1
  rw [qpow2_eq_zpow] at h1
  simp only at h1
  have h2 : (2:ℚ) ≠ 0 := by norm_num
  rcases hwf with ⟨hm, hE⟩ | ⟨hm1, hm2, hE1, hE2⟩ | ⟨hm1, hm2, hE⟩
  · replace hm : m = 0 := hm
    rw [hm] at h1
    norm_num at h1
  · replace hm1 : 2 ^ 23 ≤ m := hm1
    replace hm2 : m < 2 ^ 24 := hm2
    replace hE1 : f32bias - 126 ≤ E := hE1
    replace hE2 : E ≤ f32bias + 127 := hE2
    have hm' : (m : ℚ) = (2:ℚ) ^ ((f32bias + 23 : ℤ) - E) := by
      have := congrArg (fun q => q * (2:ℚ) ^ ((f32bias + 23 : ℤ) - E)) h1
      simp only [one_mul] at this
      rw [mul_assoc, ← zpow_add₀ h2] at this
      simpa using this
    rcases le_or_lt (E : ℤ) (f32bias + 23) with hle | hlt
    · have hm'' : (m : ℚ) = ((2 ^ ((f32bias + 23 : ℤ) - E).toNat : ℕ) : ℚ) := by
        rw [hm']
        push_cast
        rw [← zpow_natCast]
        congr 1
        omega
      have hmn : m = 2 ^ ((f32bias + 23 : ℤ) - E).toNat := by exact_mod_cast hm''
      have hj : ((f32bias + 23 : ℤ) - E).toNat = 23 := by
        by_contra hne
        rcases Nat.lt_or_ge ((f32bias + 23 : ℤ) - E).toNat 23 with hlt' | hge
        · have : m < 2 ^ 23 := by
            rw [hmn]
            exact Nat.pow_lt_pow_right (by omega) hlt'
          omega
        · have : 2 ^ 24 ≤ m := by
            rw [hmn]
            exact Nat.pow_le_pow_right (by omega) (by omega)
          omega
      have hEe : E = f32bias := by
        have := hj
        omega
      have hm23 : m = 2 ^ 23 := by rw [hmn, hj]
      rw [hEe, hm23]
      rfl
    · exfalso
      have hm1' : (2:ℚ)^(23:ℕ) ≤ (m:ℚ) := by exact_mod_cast hm1
      have hlt1 : (2:ℚ) ^ ((f32bias + 23 : ℤ) - E) < 1 := by
        rw [show (1:ℚ) = (2:ℚ) ^ (0:ℤ) by norm_num]
        apply zpow_lt_zpow_right₀ (by norm_num)
        omega
      rw [← hm'] at hlt1
      have hge1 : (1:ℚ) ≤ (m:ℚ) := by
        calc (1:ℚ) ≤ (2:ℚ)^(23:ℕ) := by norm_num
          _ ≤ (m:ℚ) := hm1'
      linarith
  · exfalso
    replace hm2 : m < 2 ^ 23 := hm2
    replace hE : E = f32bias - 126 := hE
    have hEe : (E : ℤ) - (f32bias + 23) = -149 := by
      simp only [f32bias] at hE ⊢
      omega
    rw [hEe] at h1
    have hlt : (m : ℚ) * (2:ℚ) ^ (-149 : ℤ) < 1 := by
      have hmq : (m : ℚ) < (2:ℚ) ^ (23 : ℕ) := by exact_mod_cast hm2
      calc (m : ℚ) * (2:ℚ) ^ (-149 : ℤ)
          < (2:ℚ) ^ (23:ℕ) * (2:ℚ) ^ (-149 : ℤ) :=
            mul_lt_mul_of_pos_right hmq (by positivity)
        _ = (2:ℚ) ^ (-126 : ℤ) := by
            rw [← zpow_natCast (2:ℚ) 23, ← zpow_add₀ h2]
            norm_num
        _ < 1 := by
            rw [show (1:ℚ) = (2:ℚ) ^ (0:ℤ) by norm_num]
            apply zpow_lt_zpow_right₀ (by norm_num)
            omega
    rw [h1] at hlt
    exact absurd hlt (by norm_num)
/-- The saturating cast computes the floor (truncation) of the denoted value:
`f32_as_u16` truncates, it does not round. -/
theorem f32_as_u16_eq_floor (v : F32) : f32_as_u16 v = min ⌊F32.toRat v⌋₊ 65535 := by
  rcases v with ⟨m, E⟩
  unfold f32_as_u16 F32.toRat
  simp only [seqNat_eq, qpow2_eq_zpow]
  rcases hble : Nat.ble (f32bias + 23) E with _ | _
  · have hlt : E < f32bias + 23 := by
      rcases Nat.lt_or_ge E (f32bias + 23) with h1 | h1
      · exact h1
      · exfalso
        have hb : Nat.ble (f32bias + 23) E = true := by rw [Nat.ble_eq]; omega
        rw [hb] at hble
        exact absurd hble (by simp)
    rw [cond_false]
    have hval : (m : ℚ) * (2:ℚ) ^ ((E : ℤ) - (f32bias + 23))
        = (m : ℚ) / ((2 ^ (f32bias + 23 - E) : ℕ) : ℚ) := by
      push_cast
      rw [div_eq_mul_inv, ← zpow_natCast (2:ℚ) (f32bias + 23 - E), ← zpow_neg]
      congr 1
      congr 1
      omega
    rw [hval, Nat.floor_div_nat, Nat.floor_natCast, cond_ble_eq_min]
  · have hge : f32bias + 23 ≤ E := Nat.le_of_ble_eq_true hble
    rw [cond_true]
    have hval : (m : ℚ) * (2:ℚ) ^ ((E : ℤ) - (f32bias + 23))
        = ((m * 2 ^ (E - (f32bias + 23)) : ℕ) : ℚ) := by
      push_cast
      rw [← zpow_natCast (2:ℚ) (E - (f32bias + 23))]
      congr 2
      omega
    rw [hval, Nat.floor_natCast, cond_ble_eq_min]

/-- The claim's reading of §4.1: round to nearest (half away from zero). -/
def claimRound (q : ℚ) : ℤ := ⌊q + 1/2⌋

/-- C3 as written is false: at the exactly-representable input `1/4096`
(a well-formed binary32 value), the code returns `15` while
`round(clamp(v,0,1) · 65535) = round(15.99975…) = 16` — `normalize_coord`
truncates the `f32` product instead of rounding it. -/
theorem normalize_coord_not_round :
    wfF32 (2 ^ 23, f32bias - 12) ∧
    F32.toRat (2 ^ 23, f32bias - 12) = 1 / 4096 ∧
    normalize_coord (2 ^ 23, f32bias - 12) = 15 ∧
    claimRound (min (max (F32.toRat (2 ^ 23, f32bias - 12)) 0) 1 * 65535) = 16 := by
  refine ⟨by decide, by decide, by decide, by decide⟩

/-- C3 (amended): `normalize_coord` clamps and then *truncates* (not rounds)
the `f32` product with `65535`: the final cast takes the floor of the product,
saturating at `65535`; consequently `normalize_coord` of `0.5` is `32767`
(consistently — never `32768`); every well-formed input denoting a value
`≤ 0` maps to `0`; every well-formed input denoting a value `≥ 1` maps to
`65535`. -/
theorem normalize_coord_spec :
    (∀ v : F32, f32_as_u16 v = min ⌊F32.toRat v⌋₊ 65535) ∧
    (F32.toRat (2 ^ 23, f32bias - 1) = 1 / 2 ∧
      normalize_coord (2 ^ 23, f32bias - 1) = 32767) ∧
    (∀ v : F32, wfF32 v → F32.toRat v ≤ 0 → normalize_coord v = 0) ∧
    (∀ v : F32, wfF32 v → 1 ≤ F32.toRat v → normalize_coord v = 65535) := by
  refine ⟨f32_as_u16_eq_floor, ⟨by decide, by decide⟩, ?_, ?_⟩
  · intro v hwf hle
    rcases v with ⟨m, E⟩
    rcases hwf with ⟨hm, hE⟩ | ⟨hm1, _⟩ | ⟨hm1, _⟩
    · replace hm : m = 0 := hm
      replace hE : E = 0 := hE
      rw [hm, hE]
      decide
    · exfalso
      replace hm1 : 2 ^ 23 ≤ m := hm1
      have := toRat_pos (m, E) (by simpa using (by omega : 0 < m))
      linarith
    · exfalso
      replace hm1 : 0 < m := hm1
      have := toRat_pos (m, E) (by simpa using hm1)
      linarith
  · intro v hwf h1
    have hz : ltF32 v f32zero = false := by
      rcases h : ltF32 v f32zero with _ | _
      · rfl
      · exfalso
        rw [ltF32_iff] at h
        have h0 : F32.toRat f32zero = 0 := by decide
        rw [h0] at h
        linarith
    unfold normalize_coord clampF32
    rw [hz, cond_false]
    rcases hone : ltF32 f32one v with _ | _
    · have hnlt : ¬ (F32.toRat f32one < F32.toRat v) := by
        rw [← ltF32_iff, hone]
        simp
      have h1' : F32.toRat f32one = 1 := by decide
      have heq : F32.toRat v = 1 := by
        rw [h1'] at hnlt
        linarith
      rw [cond_false, toRat_eq_one v hwf heq]
      decide
    · rw [cond_true]
      decide

/-- C3 witness: the amended claim evaluated at concrete inputs — the constant
`65535.0` is truncated to `65535` by the cast; `1/2` normalises to `32767`;
the zero value normalises to `0`; the value `2` normalises to `65535`. -/
theorem normalize_coord_spec_witness :
    f32_as_u16 f32c65535 = min ⌊F32.toRat f32c65535⌋₊ 65535 ∧
    normalize_coord (2 ^ 23, f32bias - 1) = 32767 ∧
    (wfF32 f32zero ∧ F32.toRat f32zero ≤ 0 ∧ normalize_coord f32zero = 0) ∧
    (wfF32 (2 ^ 23, f32bias + 1) ∧ 1 ≤ F32.toRat (2 ^ 23, f32bias + 1) ∧
      normalize_coord (2 ^ 23, f32bias + 1) = 65535) :=
  ⟨normalize_coord_spec.1 f32c65535, normalize_coord_spec.2.1.2,
    ⟨by decide, by decide, normalize_coord_spec.2.2.1 f32zero (by decide) (by decide)⟩,
    ⟨by decide, by decide,
      normalize_coord_spec.2.2.2 (2 ^ 23, f32bias + 1) (by decide) (by decide)⟩⟩

/-! ## Connection manager (`connection/manager.rs`, `room.rs`, `session.rs`)

`HashMap`s are modelled as association lists whose insert replaces every
binding of its key, `HashSet<u8>` as `Finset ℕ`, socket addresses as opaque
`ℕ`.  Each async handler is modelled as a pure function from manager state to
manager state plus the list of outputs it emits, in program order: `send`
models `tx.send` onto a client's outbound queue, `publish` models a Redis
publish.  The random colour of `generate_color` is an oracle parameter of
`handle_join`.  Within one handler, each lock acquisition of the Rust code is
one atomic section acting on the state; the sections of
`handle_leave_internal` are named separately because claim C5 speaks about
them. -/

abbrev Addr := ℕ

/-- `HashMap` lookup on an association list. -/
def alistLookup {β : Type} (l : List (ℕ × β)) (k : ℕ) : Option β :=
  (l.find? (fun p => p.1 == k)).map Prod.snd

/-- `HashMap::insert`: replaces any existing binding of the key. -/
def alistInsert {β : Type} (l : List (ℕ × β)) (k : ℕ) (v : β) : List (ℕ × β) :=
  (k, v) :: l.filter (fun p => p.1 != k)

/-- `HashMap::remove`. -/
def alistErase {β : Type} (l : List (ℕ × β)) (k : ℕ) : List (ℕ × β) :=
  l.filter (fun p => p.1 != k)

/-- `UserInfo` from `room.rs`. -/
structure UserInfo where
  addr : Addr
  user_id : ℕ
  username : List ℕ
  color : ℕ × ℕ × ℕ
deriving DecidableEq

/-- `Room` from `room.rs`. -/
structure Room where
  board_id : ℕ
  users : List (Addr × UserInfo)
  available_ids : Finset ℕ
  assigned_ids : Finset ℕ
deriving DecidableEq

/-- `Room::new`: all 256 ids (0–255) available. -/
def Room.new (board_id : ℕ) : Room :=
  ⟨board_id, [], Finset.range 256, ∅⟩

/-- `Room::assign_user_id` (`room.rs` lines 49–57): the lowest available id,
moved from the available set to the assigned set; `none` when no id in
`0..=255` is available. -/
def Room.assign_user_id (r : Room) : Option (ℕ × Room) :=
  match (List.range 256).find? (fun id => decide (id ∈ r.available_ids)) with
  | none => none
  | some id => some (id,
      { r with available_ids := r.available_ids.erase id,
               assigned_ids := insert id r.assigned_ids })

/-- `Room::release_user_id` (`room.rs` lines 60–63). -/
def Room.release_user_id (r : Room) (id : ℕ) : Room :=
  { r with assigned_ids := r.assigned_ids.erase id,
           available_ids := insert id r.available_ids }

/-- `Room::add_user`. -/
def Room.add_user (r : Room) (addr : Addr) (user_id : ℕ) (username : List ℕ)
    (color : ℕ × ℕ × ℕ) : Room :=
  { r with users := alistInsert r.users addr ⟨addr, user_id, username, color⟩ }

/-- `Room::remove_user` (`room.rs` lines 77–81): remove the user and release
its id (a no-op when the address is not present). -/
def Room.remove_user (r : Room) (addr : Addr) : Room :=
  match alistLookup r.users addr with
  | some info => ({ r with users := alistErase r.users addr }).release_user_id info.user_id
  | none => r

/-- `Room::user_addresses`. -/
def Room.user_addresses (r : Room) : List Addr := r.users.map Prod.fst

/-- `Room::user_count`. -/
def Room.user_count (r : Room) : ℕ := r.users.length

/-- `BoardInfo` from `session.rs`. -/
structure BoardInfo where
  user_id : ℕ
  username : List ℕ
  color : ℕ × ℕ × ℕ
deriving DecidableEq

/-- `Session` from `session.rs`. -/
structure Session where
  addr : Addr
  boards : List (ℕ × BoardInfo)
deriving DecidableEq

/-- `Session::new`. -/
def Session.new (addr : Addr) : Session := ⟨addr, []⟩

/-- `Session::add_board`. -/
def Session.add_board (s : Session) (board_id user_id : ℕ) (username : List ℕ)
    (color : ℕ × ℕ × ℕ) : Session :=
  { s with boards := alistInsert s.boards board_id ⟨user_id, username, color⟩ }

/-- `Session::remove_board`. -/
def Session.remove_board (s : Session) (board_id : ℕ) : Session :=
  { s with boards := alistErase s.boards board_id }

/-- `Session::board_ids`. -/
def Session.board_ids (s : Session) : List ℕ := s.boards.map Prod.fst

/-- `Session::get_board_info`. -/
def Session.get_board_info (s : Session) (board_id : ℕ) : Option BoardInfo :=
  alistLookup s.boards board_id

/-- `Session::is_in_board`. -/
def Session.is_in_board (s : Session) (board_id : ℕ) : Bool :=
  (alistLookup s.boards board_id).isSome

/-- `RedisPubSub::board_channel` (`pubsub.rs` lines 170–172). -/
def board_channel (board_id : ℕ) : String :=
  "presence:board:" ++ toString board_id

/-- `RedisPubSub::global_channel` (`pubsub.rs` lines 175–177). -/
def global_channel : String := "presence:global"

/-- The channel set subscribed by `start_redis_listener` (`manager.rs` lines
52–65): only the global channel.  No other call to `subscribe` exists in the
service, so this is the instance's entire subscription set. -/
def start_listener_channels : List String := [global_channel]

/-- A pub/sub subscriber receives a message iff it is subscribed to the
channel the message was published on. -/
def receives (subscribed : List String) (channel : String) : Bool :=
  subscribed.contains channel

/-- An emitted effect: a local websocket send, or a Redis publish. -/
inductive Output where
  | send (addr : Addr) (message : BinaryMessage)
  | publish (channel : String) (message : BinaryMessage)
deriving DecidableEq

/-- The three shared maps of `ConnectionManager` (the outbound senders of
`connections` are modelled by address membership). -/
structure ManagerState where
  connections : Finset Addr
  sessions : List (Addr × Session)
  rooms : List (ℕ × Room)
deriving DecidableEq

/-- `ConnectionManager::publish_to_redis` (`manager.rs` lines 128–143):
publish on the per-board channel. -/
def publish_to_redis (board_id : ℕ) (message : BinaryMessage) : Output :=
  .publish (board_channel board_id) message

/-- `ConnectionManager::broadcast_to_room` (`manager.rs` lines 412–449):
collect the room's member addresses, then send to every member with a
registered connection, skipping the excluded address. -/
def broadcast_to_room (s : ManagerState) (board_id : ℕ) (message : BinaryMessage)
    (exclude : Option Addr) : List Output :=
  match alistLookup s.rooms board_id with
  | none => []
  | some room =>
    room.user_addresses.filterMap fun a =>
      if exclude = some a then none
      else if a ∈ s.connections then some (.send a message) else none

/-- `ConnectionManager::connect`. -/
def ConnectionManager.connect (s : ManagerState) (addr : Addr) : ManagerState :=
  { s with connections := insert addr s.connections,
           sessions := alistInsert s.sessions addr (Session.new addr) }

/-- `ConnectionManager::handle_join` (`manager.rs` lines 206–285).  The random
colour is passed as an oracle. -/
def handle_join (s : ManagerState) (addr : Addr) (board_id : ℕ) (username : List ℕ)
    (color : ℕ × ℕ × ℕ) : ManagerState × List Output :=
  if (match alistLookup s.sessions addr with
      | some sess => sess.is_in_board board_id
      | none => false) then (s, [])
  else
    let entry : Bool × Room :=
      match alistLookup s.rooms board_id with
      | some r => (true, r)
      | none => (false, Room.new board_id)
    match (entry.2).assign_user_id with
    | none =>
        ({ s with rooms := if entry.1 then s.rooms
            else alistInsert s.rooms board_id entry.2 }, [])
    | some (user_id, room1) =>
        let room2 := room1.add_user addr user_id username color
        let user_count := room2.user_count
        let s1 := { s with rooms := alistInsert s.rooms board_id room2 }
        let s2 := match alistLookup s1.sessions addr with
          | some sess =>
              { s1 with sessions :=
                  alistInsert s1.sessions addr (sess.add_board board_id user_id username color) }
          | none => s1
        let user_joined : BinaryMessage := .userJoined board_id user_id username color
        let presence : BinaryMessage := .presenceUpdate board_id user_count
        (s2, publish_to_redis board_id user_joined
              :: (broadcast_to_room s2 board_id user_joined (some addr)
              ++ publish_to_redis board_id presence
              :: broadcast_to_room s2 board_id presence none))

/-- Step 1 of `handle_leave_internal` (`manager.rs` lines 297–306): read the
member's `user_id` from the session, under the sessions read lock. -/
def leave_lookup (s : ManagerState) (addr : Addr) (board_id : ℕ) : Option ℕ :=
  match alistLookup s.sessions addr with
  | some sess => (sess.get_board_info board_id).map BoardInfo.user_id
  | none => none

/-- Step 2 of `handle_leave_internal` (`manager.rs` lines 309–319), the first
rooms critical section: remove the user from the room and capture the
remaining count.  The registry entry is NOT deleted here, even when the count
reaches zero. -/
def leave_remove_from_room (s : ManagerState) (addr : Addr) (board_id : ℕ) :
    Option (ManagerState × ℕ) :=
  match alistLookup s.rooms board_id with
  | none => none
  | some room =>
      let room1 := room.remove_user addr
      some ({ s with rooms := alistInsert s.rooms board_id room1 }, room1.user_count)

/-- Final step of `handle_leave_internal` (`manager.rs` lines 357–361), a
second, separate rooms critical section: delete the (now empty) room entry. -/
def leave_delete_room (s : ManagerState) (board_id : ℕ) : ManagerState :=
  { s with rooms := alistErase s.rooms board_id }

/-- `ConnectionManager::handle_leave_internal` (`manager.rs` lines 293–362),
the composition of its critical sections and fan-outs in program order. -/
def handle_leave_internal (s : ManagerState) (addr : Addr) (board_id : ℕ) :
    ManagerState × List Output :=
  match leave_lookup s addr board_id with
  | none => (s, [])
  | some user_id =>
    match leave_remove_from_room s addr board_id with
    | none => (s, [])
    | some (s1, user_count) =>
      let s2 := match alistLookup s1.sessions addr with
        | some sess =>
            { s1 with sessions :=
                alistInsert s1.sessions addr (sess.remove_board board_id) }
        | none => s1
      let user_left : BinaryMessage := .userLeft board_id user_id
      let outs1 := publish_to_redis board_id user_left
            :: broadcast_to_room s2 board_id user_left (some addr)
      let presence : BinaryMessage := .presenceUpdate board_id user_count
      let outs2 := if 0 < user_count then
            publish_to_redis board_id presence
              :: broadcast_to_room s2 board_id presence none
          else []
      let s3 := if user_count = 0 then leave_delete_room s2 board_id else s2
      (s3, outs1 ++ outs2)

/-- `ConnectionManager::handle_leave`. -/
def handle_leave (s : ManagerState) (addr : Addr) (board_id : ℕ) :
    ManagerState × List Output :=
  handle_leave_internal s addr board_id

/-- `ConnectionManager::disconnect` (`manager.rs` lines 157–182): leave every
board the session still holds, then drop the connection and the session. -/
def ConnectionManager.disconnect (s : ManagerState) (addr : Addr) :
    ManagerState × List Output :=
  let step : ManagerState × List Output :=
    match alistLookup s.sessions addr with
    | some sess =>
        sess.board_ids.foldl (fun acc b =>
          let next := handle_leave_internal acc.1 addr b
          (next.1, acc.2 ++ next.2)) (s, [])
    | none => (s, [])
  ({ step.1 with connections := step.1.connections.erase addr,
                 sessions := alistErase step.1.sessions addr }, step.2)

/-- `ConnectionManager::handle_cursor_update` (`manager.rs` lines 365–398):
drop the frame if the session does not hold the board; otherwise broadcast a
`CursorBroadcast` carrying the session's `user_id` to the Bus and to every
local member except the sender. -/
def handle_cursor_update (s : ManagerState) (addr : Addr) (board_id x y : ℕ) :
    ManagerState × List Output :=
  match alistLookup s.sessions addr with
  | none => (s, [])
  | some sess =>
    match sess.get_board_info board_id with
    | none => (s, [])
    | some info =>
      let msg : BinaryMessage := .cursorBroadcast board_id info.user_id x y
      (s, publish_to_redis board_id msg
            :: broadcast_to_room s board_id msg (some addr))

/-- `ConnectionManager::handle_heartbeat`. -/
def handle_heartbeat (s : ManagerState) (addr : Addr) : ManagerState × List Output :=
  (s, if addr ∈ s.connections then [.send addr .heartbeat] else [])

theorem alistLookup_insert_self {β : Type} (l : List (ℕ × β)) (k : ℕ) (v : β) :
    alistLookup (alistInsert l k v) k = some v := by
  unfold alistLookup alistInsert
  simp [List.find?_cons]

theorem alistLookup_insert_ne {β : Type} (l : List (ℕ × β)) (k k' : ℕ) (v : β)
    (h : k' ≠ k) : alistLookup (alistInsert l k v) k' = alistLookup l k' := by
  unfold alistLookup alistInsert
  rw [List.find?_cons_of_neg _ (by simpa using Ne.symm h)]
  congr 1
  induction l with
  | nil => rfl
  | cons p t iht =>
    by_cases hp : p.1 = k
    · rw [List.filter_cons_of_neg (by simpa using hp)]
      rw [List.find?_cons_of_neg _ (by simp [hp]; exact fun hk => h hk.symm)]
      exact iht
    · rw [List.filter_cons_of_pos (by simpa using hp)]
      by_cases hp' : p.1 = k'
      · rw [List.find?_cons_of_pos _ (by simpa using hp'),
          List.find?_cons_of_pos _ (by simpa using hp')]
      · rw [List.find?_cons_of_neg _ (by simpa using hp'),
          List.find?_cons_of_neg _ (by simpa using hp')]
        exact iht

theorem alistLookup_erase_self {β : Type} (l : List (ℕ × β)) (k : ℕ) :
    alistLookup (alistErase l k) k = none := by
  unfold alistLookup alistErase
  rw [List.find?_eq_none.mpr]
  · rfl
  · intro p hp
    have := List.of_mem_filter hp
    simp at this ⊢
    exact this

theorem mem_alistInsert {β : Type} (l : List (ℕ × β)) (k : ℕ) (v : β) (p : ℕ × β)
    (h : p ∈ alistInsert l k v) : p = (k, v) ∨ p ∈ l := by
  unfold alistInsert at h
  rcases List.mem_cons.mp h with h1 | h1
  · exact Or.inl h1
  · exact Or.inr (List.mem_of_mem_filter h1)

theorem mem_alistErase {β : Type} (l : List (ℕ × β)) (k : ℕ) (p : ℕ × β)
    (h : p ∈ alistErase l k) : p ∈ l :=
  List.mem_of_mem_filter h

theorem alistErase_insert {β : Type} (l : List (ℕ × β)) (k : ℕ) (v : β) :
    alistErase (alistInsert l k v) k = alistErase l k := by
  unfold alistErase alistInsert
  rw [List.filter_cons_of_neg (by simp)]
  rw [List.filter_filter]
  congr 1
  funext a
  simp

/-- Well-formedness of a room's id bookkeeping (the §3 invariant "free and
assigned sets are disjoint and cover `0..=255`", plus the coupling between
member count and assigned ids that the Manager maintains). -/
def wfRoom (r : Room) : Prop :=
  r.assigned_ids ∪ r.available_ids = Finset.range 256 ∧
  r.assigned_ids ∩ r.available_ids = ∅ ∧
  r.users.length = r.assigned_ids.card

instance : DecidablePred wfRoom := by
  intro r
  unfold wfRoom
  infer_instance

/-- A room holding 256 members has no available id: allocation fails. -/
theorem assign_user_id_of_full (r : Room) (hwf : wfRoom r)
    (hfull : r.users.length = 256) : r.assign_user_id = none := by
  obtain ⟨hu, hd, hc⟩ := hwf
  have hcard : r.assigned_ids.card = 256 := by omega
  have hsub : r.assigned_ids ⊆ Finset.range 256 := by
    rw [← hu]; exact Finset.subset_union_left
  have heq : r.assigned_ids = Finset.range 256 :=
    Finset.eq_of_subset_of_card_le hsub (by simp [hcard])
  have hav : r.available_ids = ∅ := by
    by_contra h
    obtain ⟨a, ha⟩ := Finset.nonempty_iff_ne_empty.mpr h
    have ha256 : a ∈ Finset.range 256 := by
      rw [← hu]; exact Finset.mem_union_right _ ha
    have ha' : a ∈ r.assigned_ids := heq ▸ ha256
    have : a ∈ r.assigned_ids ∩ r.available_ids := Finset.mem_inter.mpr ⟨ha', ha⟩
    rw [hd] at this
    exact absurd this (Finset.not_mem_empty a)
  unfold Room.assign_user_id
  rw [List.find?_eq_none.mpr (by simp [hav])]

/-- C7: a Join targeting a board whose room already holds 256 members fails
silently and atomically: the state (rooms registry and all sessions) is
returned unchanged and no output — no `UserJoined`, no `PresenceUpdate`,
neither locally nor to the Bus — is emitted. -/
theorem handle_join_full_room (s : ManagerState) (addr : Addr) (board_id : ℕ)
    (username : List ℕ) (color : ℕ × ℕ × ℕ) (room : Room)
    (hroom : alistLookup s.rooms board_id = some room)
    (hwf : wfRoom room) (hfull : room.users.length = 256) :
    handle_join s addr board_id username color = (s, []) := by
  unfold handle_join
  split
  · rfl
  · rw [hroom]
    dsimp only
    rw [assign_user_id_of_full room hwf hfull]
    rfl

/-- A concrete room with 256 members and no free id. -/
def fullRoom : Room :=
  ⟨1, (List.range 256).map (fun i => (i, ⟨i, i, [65], (0, 0, 0)⟩)), ∅, Finset.range 256⟩

/-- A concrete state hosting the full room on board 1. -/
def fullState : ManagerState := ⟨{300}, [(300, Session.new 300)], [(1, fullRoom)]⟩

/-- C7 witness: a concrete 257th Join against a full room returns the state
unchanged with no outputs. -/
theorem handle_join_full_room_witness :
    alistLookup fullState.rooms 1 = some fullRoom ∧ wfRoom fullRoom ∧
      fullRoom.users.length = 256 ∧
      handle_join fullState 300 1 [66] (1, 2, 3) = (fullState, []) :=
  ⟨by decide, by decide, by decide,
    handle_join_full_room fullState 300 1 [66] (1, 2, 3) fullRoom
      (by decide) (by decide) (by decide)⟩

/-- C8: CursorUpdate handling.  If the sender's session does not hold the
board, the frame is dropped: no state change, no outputs.  Otherwise the
Manager emits exactly one Bus publish of
`CursorBroadcast{board_id, user_id, x, y}` (with the session's `user_id`)
followed by local sends of that broadcast: the sender receives nothing, every
send goes to a room member other than the sender, and every connected member
other than the sender receives the broadcast. -/
theorem handle_cursor_update_spec :
    (∀ (s : ManagerState) (addr : Addr) (board_id x y : ℕ),
      alistLookup s.sessions addr = none →
      handle_cursor_update s addr board_id x y = (s, [])) ∧
    (∀ (s : ManagerState) (addr : Addr) (board_id x y : ℕ) (sess : Session),
      alistLookup s.sessions addr = some sess →
      sess.get_board_info board_id = none →
      handle_cursor_update s addr board_id x y = (s, [])) ∧
    (∀ (s : ManagerState) (addr : Addr) (board_id x y : ℕ) (sess : Session)
        (info : BoardInfo) (room : Room),
      alistLookup s.sessions addr = some sess →
      sess.get_board_info board_id = some info →
      alistLookup s.rooms board_id = some room →
      (handle_cursor_update s addr board_id x y).1 = s ∧
      Output.publish (board_channel board_id)
          (.cursorBroadcast board_id info.user_id x y)
        ∈ (handle_cursor_update s addr board_id x y).2 ∧
      (∀ m : BinaryMessage,
        Output.send addr m ∉ (handle_cursor_update s addr board_id x y).2) ∧
      (∀ a : Addr, a ∈ room.user_addresses → a ≠ addr → a ∈ s.connections →
        Output.send a (.cursorBroadcast board_id info.user_id x y)
          ∈ (handle_cursor_update s addr board_id x y).2) ∧
      (∀ (a : Addr) (m : BinaryMessage),
        Output.send a m ∈ (handle_cursor_update s addr board_id x y).2 →
        m = .cursorBroadcast board_id info.user_id x y ∧
          a ∈ room.user_addresses ∧ a ≠ addr)) := by
  refine ⟨?_, ?_, ?_⟩
  · intro s addr board_id x y hs
    unfold handle_cursor_update
    rw [hs]
  · intro s addr board_id x y sess hs hb
    unfold handle_cursor_update
    rw [hs]
    dsimp only
    rw [hb]
  · intro s addr board_id x y sess info room hs hb hr
    have hout : handle_cursor_update s addr board_id x y =
        (s, publish_to_redis board_id (.cursorBroadcast board_id info.user_id x y)
          :: broadcast_to_room s board_id
              (.cursorBroadcast board_id info.user_id x y) (some addr)) := by
      unfold handle_cursor_update
      rw [hs]
      dsimp only
      rw [hb]
    rw [hout]
    have hbc : broadcast_to_room s board_id
        (.cursorBroadcast board_id info.user_id x y) (some addr) =
        room.user_addresses.filterMap (fun a =>
          if (some addr : Option Addr) = some a then none
          else if a ∈ s.connections then
            some (.send a (.cursorBroadcast board_id info.user_id x y)) else none) := by
      unfold broadcast_to_room
      rw [hr]
    refine ⟨rfl, by simp [publish_to_redis], ?_, ?_, ?_⟩
    · intro m hm
      simp only [List.mem_cons] at hm
      rcases hm with hm | hm
      · simp [publish_to_redis] at hm
      · rw [hbc] at hm
        rw [List.mem_filterMap] at hm
        obtain ⟨a, _, ha⟩ := hm
        by_cases hae : (some addr : Option Addr) = some a
        · rw [if_pos hae] at ha
          exact absurd ha (by simp)
        · rw [if_neg hae] at ha
          by_cases hc : a ∈ s.connections
          · rw [if_pos hc] at ha
            have : a = addr := by
              have := (Option.some.injEq _ _) ▸ ha
              cases ha
              rfl
            exact hae (by rw [this])
          · rw [if_neg hc] at ha
            exact absurd ha (by simp)
    · intro a hmem hne hconn
      simp only [List.mem_cons]
      right
      rw [hbc, List.mem_filterMap]
      refine ⟨a, hmem, ?_⟩
      rw [if_neg (by simp [Ne.symm hne]), if_pos hconn]
    · intro a m hm
      simp only [List.mem_cons] at hm
      rcases hm with hm | hm
      · simp [publish_to_redis] at hm
      · rw [hbc, List.mem_filterMap] at hm
        obtain ⟨a', ha', hfa⟩ := hm
        by_cases hae : (some addr : Option Addr) = some a'
        · rw [if_pos hae] at hfa
          exact absurd hfa (by simp)
        · rw [if_neg hae] at hfa
          by_cases hc : a' ∈ s.connections
          · rw [if_pos hc] at hfa
            have h1 : a' = a ∧ m = BinaryMessage.cursorBroadcast board_id info.user_id x y := by
              have := Option.some.inj hfa
              cases this
              exact ⟨rfl, rfl⟩
            obtain ⟨rfl, rfl⟩ := h1
            exact ⟨rfl, ha', fun hx => hae (by rw [hx])⟩
          · rw [if_neg hc] at hfa
            exact absurd hfa (by simp)

/-- A concrete two-member room on board 2 for the cursor witness. -/
def cursorState : ManagerState :=
  ⟨{1, 3},
   [(1, ⟨1, [(2, ⟨5, [65], (1, 1, 1)⟩)]⟩), (3, ⟨3, [(2, ⟨6, [66], (2, 2, 2)⟩)]⟩)],
   [(2, ⟨2, [(1, ⟨1, 5, [65], (1, 1, 1)⟩), (3, ⟨3, 6, [66], (2, 2, 2)⟩)],
      (Finset.range 256) \ {5, 6}, {5, 6}⟩)]⟩

/-- C8 witness: on the concrete state, a CursorUpdate from address 1 on
board 2 leaves the state unchanged, publishes the broadcast with the
session's `user_id = 5` to the board channel, sends nothing to the sender,
and delivers the broadcast to the connected peer at address 3. -/
theorem handle_cursor_update_spec_witness :
    (handle_cursor_update cursorState 1 2 7 9).1 = cursorState ∧
    Output.publish (board_channel 2) (.cursorBroadcast 2 5 7 9)
      ∈ (handle_cursor_update cursorState 1 2 7 9).2 ∧
    (∀ m : BinaryMessage, Output.send 1 m ∉ (handle_cursor_update cursorState 1 2 7 9).2) ∧
    Output.send 3 (.cursorBroadcast 2 5 7 9) ∈ (handle_cursor_update cursorState 1 2 7 9).2 := by
  have h := handle_cursor_update_spec.2.2 cursorState 1 2 7 9
    ⟨1, [(2, ⟨5, [65], (1, 1, 1)⟩)]⟩ ⟨5, [65], (1, 1, 1)⟩
    ⟨2, [(1, ⟨1, 5, [65], (1, 1, 1)⟩), (3, ⟨3, 6, [66], (2, 2, 2)⟩)],
      (Finset.range 256) \ {5, 6}, {5, 6}⟩
    (by decide) (by decide) (by decide)
  exact ⟨h.1, h.2.1, h.2.2.1, h.2.2.2.1 3 (by decide) (by decide) (by decide)⟩

/-- `find?` over `range n` returns the least satisfying index: everything
below the hit fails the predicate. -/
theorem find_range_min (p : ℕ → Bool) :
    ∀ n i, (List.range n).find? p = some i → ∀ j, j < i → p j = false := by
  intro n
  induction n with
  | zero =>
    intro i h
    simp [List.range_zero] at h
  | succ n ihn =>
    intro i h j hj
    rw [List.range_succ, List.find?_append] at h
    rcases hfind : (List.range n).find? p with _ | i'
    · rw [hfind, Option.none_or] at h
      simp only [List.find?_cons, List.find?_nil] at h
      rcases hp : p n with _ | _
      · rw [hp] at h
        simp at h
      · rw [hp] at h
        simp at h
        subst h
        have := List.find?_eq_none.mp hfind j (by simp; omega)
        simpa using this
    · rw [hfind] at h
      simp at h
      subst h
      exact ihn _ hfind j hj

/-- S2 scenario states: three clients connect and join board 7. -/
def s2state0 : ManagerState :=
  ConnectionManager.connect (ConnectionManager.connect
    (ConnectionManager.connect ⟨∅, [], []⟩ 1) 2) 3

def s2state1 : ManagerState := (handle_join s2state0 1 7 [65] (1, 2, 3)).1

def s2state2 : ManagerState := (handle_join s2state1 2 7 [66] (4, 5, 6)).1

def s2state3 : ManagerState := (handle_join s2state2 3 7 [67] (7, 8, 9)).1

/-- Client 2 (the holder of user_id 1) disconnects; a fourth client joins. -/
def s2state4 : ManagerState := (ConnectionManager.disconnect s2state3 2).1

def s2state5 : ManagerState :=
  (handle_join (ConnectionManager.connect s2state4 4) 4 7 [68] (0, 0, 0)).1

/-- C6: the allocator.  (1) With the free set inside `0..=255`, allocation
returns `none` exactly when the free set is empty.  (2) A successful
allocation returns the smallest free id, moving it from the free to the
assigned set.  (3) `remove_user` releases the member's id back to the free
set.  (4) The S2 scenario: on the concrete states `s2state0`–`s2state5`, three
sequential joins to board 7 receive user_ids 0, 1, 2; after the holder of
id 1 disconnects, the next join receives the recycled id 1. -/
theorem room_allocator_spec :
    (∀ r : Room, r.available_ids ⊆ Finset.range 256 →
      (r.assign_user_id = none ↔ r.available_ids = ∅)) ∧
    (∀ (r : Room) (id : ℕ) (r' : Room), r.assign_user_id = some (id, r') →
      id ∈ r.available_ids ∧ (∀ j ∈ r.available_ids, id ≤ j) ∧
      r'.available_ids = r.available_ids.erase id ∧
      r'.assigned_ids = insert id r.assigned_ids) ∧
    (∀ (r : Room) (addr : Addr) (info : UserInfo),
      alistLookup r.users addr = some info →
      (r.remove_user addr).available_ids = insert info.user_id r.available_ids ∧
      (r.remove_user addr).assigned_ids = r.assigned_ids.erase info.user_id ∧
      (r.remove_user addr).users = alistErase r.users addr) ∧
    (leave_lookup s2state1 1 7 = some 0 ∧
      leave_lookup s2state2 2 7 = some 1 ∧
      leave_lookup s2state3 3 7 = some 2 ∧
      leave_lookup s2state5 4 7 = some 1) := by
  refine ⟨?_, ?_, ?_, by decide, by decide, by decide, by decide⟩
  · intro r hsub
    unfold Room.assign_user_id
    constructor
    · intro h
      rcases hfind : (List.range 256).find? (fun id => decide (id ∈ r.available_ids))
        with _ | id
      · have hnone := List.find?_eq_none.mp hfind
        by_contra hne
        obtain ⟨a, ha⟩ := Finset.nonempty_iff_ne_empty.mpr hne
        have ha256 : a < 256 := by
          have := hsub ha
          simpa [Finset.mem_range] using this
        have := hnone a (by simp [List.mem_range]; omega)
        simp [ha] at this
      · rw [hfind] at h
        simp at h
    · intro h
      rw [List.find?_eq_none.mpr (by simp [h])]
  · intro r i r' h
    unfold Room.assign_user_id at h
    rcases hfind : (List.range 256).find? (fun x => decide (x ∈ r.available_ids))
      with _ | i'
    · rw [hfind] at h
      simp at h
    · rw [hfind] at h
      simp only [Option.some.injEq, Prod.mk.injEq] at h
      obtain ⟨hid, hr⟩ := h
      subst hid
      have hmem : i' ∈ r.available_ids := by
        have := List.find?_some hfind
        simpa using this
      refine ⟨hmem, ?_, ?_, ?_⟩
      · intro j hj
        by_contra hlt
        push_neg at hlt
        have := find_range_min _ 256 i' hfind j hlt
        simp [hj] at this
      · rw [← hr]
      · rw [← hr]
  · intro r addr info h
    unfold Room.remove_user
    rw [h]
    unfold Room.release_user_id
    exact ⟨rfl, rfl, rfl⟩

/-- C6 witness: the allocator facts evaluated at concrete rooms — a fresh
room has a nonempty free set (the iff instantiated at `Room.new 5`), removing
the only member of a one-member room returns id 4 to the free set, and the
scenario's final join receives id 1. -/
theorem room_allocator_spec_witness :
    ((Room.new 5).assign_user_id = none ↔ (Room.new 5).available_ids = ∅) ∧
    ((⟨1, [(9, ⟨9, 4, [65], (0, 0, 0)⟩)], Finset.range 4, {4}⟩ : Room).remove_user 9).available_ids
        = insert 4 (Finset.range 4) ∧
    leave_lookup s2state5 4 7 = some 1 :=
  ⟨room_allocator_spec.1 (Room.new 5) (by decide),
   (room_allocator_spec.2.2.1 ⟨1, [(9, ⟨9, 4, [65], (0, 0, 0)⟩)], Finset.range 4, {4}⟩
      9 ⟨9, 4, [65], (0, 0, 0)⟩ (by decide)).1,
   room_allocator_spec.2.2.2.2.2.2⟩

/-- Claim C5's invariant: every board present in the rooms registry maps to a
room with at least one member. -/
def roomsInv (s : ManagerState) : Prop := ∀ p ∈ s.rooms, (p.2).users ≠ []

instance : DecidablePred roomsInv := by
  intro s
  unfold roomsInv
  infer_instance

/-- `handle_cursor_update` never changes the state. -/
theorem handle_cursor_update_fst (s : ManagerState) (addr : Addr) (b x y : ℕ) :
    (handle_cursor_update s addr b x y).1 = s := by
  unfold handle_cursor_update
  cases alistLookup s.sessions addr with
  | none => rfl
  | some sess =>
    dsimp only
    cases sess.get_board_info b with
    | none => rfl
    | some info => rfl

/-- A fresh room allocates id 0. -/
theorem assign_user_id_new (b : ℕ) :
    (Room.new b).assign_user_id =
      some (0, ⟨b, [], (Finset.range 256).erase 0, insert 0 ∅⟩) := by
  unfold Room.assign_user_id Room.new
  rw [show (List.range 256).find? (fun x => decide (x ∈ Finset.range 256)) = some 0
    from by decide]

/-- Join preserves the invariant. -/
theorem roomsInv_handle_join (s : ManagerState) (addr : Addr) (b : ℕ)
    (u : List ℕ) (c : ℕ × ℕ × ℕ) (h : roomsInv s) :
    roomsInv (handle_join s addr b u c).1 := by
  unfold handle_join
  split
  · exact h
  · cases hr : alistLookup s.rooms b with
    | some r =>
      dsimp only
      cases ha : r.assign_user_id with
      | none => exact h
      | some pair =>
        obtain ⟨uid, room1⟩ := pair
        dsimp only
        cases alistLookup s.sessions addr with
        | none =>
          intro p hp
          rcases mem_alistInsert _ _ _ _ hp with hpe | hmem
          · rw [hpe]
            simp [Room.add_user, alistInsert]
          · exact h p hmem
        | some sess =>
          intro p hp
          rcases mem_alistInsert _ _ _ _ hp with hpe | hmem
          · rw [hpe]
            simp [Room.add_user, alistInsert]
          · exact h p hmem
    | none =>
      dsimp only
      rw [assign_user_id_new b]
      dsimp only
      cases alistLookup s.sessions addr with
      | none =>
        intro p hp
        rcases mem_alistInsert _ _ _ _ hp with hpe | hmem
        · rw [hpe]
          simp [Room.add_user, alistInsert]
        · exact h p hmem
      | some sess =>
        intro p hp
        rcases mem_alistInsert _ _ _ _ hp with hpe | hmem
        · rw [hpe]
          simp [Room.add_user, alistInsert]
        · exact h p hmem

/-- Leave (and the leave part of disconnect) preserves the invariant: an
emptied room is deleted before the handler returns. -/
theorem roomsInv_handle_leave_internal (s : ManagerState) (addr : Addr) (b : ℕ)
    (h : roomsInv s) : roomsInv (handle_leave_internal s addr b).1 := by
  unfold handle_leave_internal
  cases leave_lookup s addr b with
  | none => exact h
  | some uid =>
    dsimp only
    cases hrm : leave_remove_from_room s addr b with
    | none => exact h
    | some pair =>
      obtain ⟨s1, count⟩ := pair
      unfold leave_remove_from_room at hrm
      cases hr : alistLookup s.rooms b with
      | none => rw [hr] at hrm; exact absurd hrm (by simp)
      | some room =>
        rw [hr] at hrm
        dsimp only at hrm
        have hs1 : s1 = { s with rooms := alistInsert s.rooms b (room.remove_user addr) } ∧
            count = (room.remove_user addr).user_count := by
          have := hrm
          simp only [Option.some.injEq, Prod.mk.injEq] at this
          exact ⟨this.1.symm, this.2.symm⟩
        obtain ⟨hs1e, hce⟩ := hs1
        dsimp only
        by_cases hc0 : count = 0
        · rw [if_pos hc0]
          unfold leave_delete_room
          intro p hp
          have hp' : p ∈ alistErase s1.rooms b := by
            cases halist : alistLookup s1.sessions addr with
            | none => rw [halist] at hp; exact hp
            | some sess => rw [halist] at hp; exact hp
          rw [hs1e] at hp'
          have : p ∈ alistErase s.rooms b := by
            have hp2 : p ∈ alistErase (alistInsert s.rooms b (room.remove_user addr)) b := hp'
            rw [alistErase_insert] at hp2
            exact hp2
          exact h p (mem_alistErase _ _ _ this)
        · rw [if_neg hc0]
          intro p hp
          have hp' : p ∈ s1.rooms := by
            cases halist : alistLookup s1.sessions addr with
            | none => rw [halist] at hp; exact hp
            | some sess => rw [halist] at hp; exact hp
          rw [hs1e] at hp'
          rcases mem_alistInsert _ _ _ _ hp' with hpe | hmem
          · rw [hpe]
            have hlen : (room.remove_user addr).user_count ≠ 0 := by omega
            unfold Room.user_count at hlen
            simpa using fun hnil => hlen (by rw [hnil]; rfl)
          · exact h p hmem

/-- Disconnect preserves the invariant. -/
theorem roomsInv_disconnect (s : ManagerState) (addr : Addr) (h : roomsInv s) :
    roomsInv (ConnectionManager.disconnect s addr).1 := by
  unfold ConnectionManager.disconnect
  cases alistLookup s.sessions addr with
  | none => exact h
  | some sess =>
    dsimp only
    suffices hall : ∀ (l : List ℕ) (acc : ManagerState × List Output), roomsInv acc.1 →
        roomsInv (l.foldl (fun acc b =>
          ((handle_leave_internal acc.1 addr b).1,
            acc.2 ++ (handle_leave_internal acc.1 addr b).2)) acc).1 by
      exact hall sess.board_ids (s, []) h
    intro l
    induction l with
    | nil => intro acc hacc; exact hacc
    | cons b t iht =>
      intro acc hacc
      exact iht _ (roomsInv_handle_leave_internal acc.1 addr b hacc)

/-- S3 scenario: a single client connects. -/
def s3state0 : ManagerState := ConnectionManager.connect ⟨∅, [], []⟩ 1

/-- S3 scenario: the client joins board 9. -/
def s3state1 : ManagerState := (handle_join s3state0 1 9 [65] (1, 2, 3)).1

/-- The state and remaining count after only the FIRST rooms critical section
of the subsequent Leave (the user removal, `manager.rs` lines 309–319). -/
def s3mid : ManagerState × ℕ :=
  (leave_remove_from_room s3state1 1 9).getD (⟨∅, [], []⟩, 37)

/-- S3 scenario: the client leaves board 9 (the full operation). -/
def s3state2 : ManagerState := (handle_leave s3state1 1 9).1

/-- S3 scenario: a second client connects and joins board 9 afresh. -/
def s3state3 : ManagerState :=
  (handle_join (ConnectionManager.connect s3state2 2) 2 9 [66] (4, 5, 6)).1

/-- Counterexample to claim C5 as stated: the room-emptying removal and the
registry-entry deletion are NOT in the same critical section.  After the
first rooms critical section of `handle_leave_internal` completes, the
member count is already 0, yet board 9 is still present in the registry; the
deletion only happens in a second, separate acquisition of the rooms lock
(`manager.rs` lines 357–361). -/
theorem leave_deletes_in_separate_critical_section :
    (leave_remove_from_room s3state1 1 9).isSome = true ∧
    s3mid.2 = 0 ∧
    (alistLookup s3mid.1.rooms 9).isSome = true := by decide

/-- Claim C5, amended: every completed Manager operation (join, leave, cursor
update, disconnect) preserves the invariant that each board present in the
rooms registry has at least one member — an emptying Leave deletes the
registry entry before the operation returns, though in a second rooms
critical section rather than the one that removed the member.  Moreover, in
the S3 scenario, after a Join of board 9 followed by a Leave the registry
holds no entry for board 9, and a subsequent Join by another client
recreates the room with user_id 0. -/
theorem rooms_nonempty_invariant :
    (∀ (s : ManagerState) (addr : Addr) (b : ℕ) (u : List ℕ) (c : ℕ × ℕ × ℕ),
      roomsInv s → roomsInv (handle_join s addr b u c).1) ∧
    (∀ (s : ManagerState) (addr : Addr) (b : ℕ),
      roomsInv s → roomsInv (handle_leave s addr b).1) ∧
    (∀ (s : ManagerState) (addr : Addr) (b x y : ℕ),
      roomsInv s → roomsInv (handle_cursor_update s addr b x y).1) ∧
    (∀ (s : ManagerState) (addr : Addr),
      roomsInv s → roomsInv (ConnectionManager.disconnect s addr).1) ∧
    alistLookup s3state2.rooms 9 = none ∧
    leave_lookup s3state3 2 9 = some 0 := by
  refine ⟨roomsInv_handle_join, ?_, ?_, roomsInv_disconnect, by decide, by decide⟩
  · intro s addr b h
    exact roomsInv_handle_leave_internal s addr b h
  · intro s addr b x y h
    rw [handle_cursor_update_fst]
    exact h

theorem rooms_nonempty_invariant_witness :
    roomsInv (handle_join s3state0 1 9 [65] (1, 2, 3)).1 ∧
    roomsInv (ConnectionManager.disconnect s3state1 1).1 :=
  ⟨rooms_nonempty_invariant.1 s3state0 1 9 [65] (1, 2, 3) (by decide),
   rooms_nonempty_invariant.2.2.2.1 s3state1 1 (by decide)⟩

/-- Whether a decode result is an error. -/
def isErr : Except ProtocolError BinaryMessage → Bool
  | .error _ => true
  | .ok _ => false

/-- The malformed-input conditions enumerated by the spec: a fixed-size tag
with the wrong total length, a variable-size tag (Join, UserJoined) whose
declared username length exceeds 32 or whose username bytes are not valid
UTF-8, or a tag outside 0x01..=0x08. -/
def badInput (data : List ℕ) : Bool :=
  match data with
  | [] => false
  | t :: rest =>
    if t = MSG_CURSOR_UPDATE then decide (rest.length + 1 ≠ 7)
    else if t = MSG_CURSOR_BROADCAST then decide (rest.length + 1 ≠ 8)
    else if t = MSG_JOIN then
      match rest with
      | _ :: _ :: len :: u =>
          decide (MAX_USERNAME_LENGTH < len) || !isValidUtf8 (u.take len)
      | _ => false
    else if t = MSG_LEAVE then decide (rest.length + 1 ≠ 3)
    else if t = MSG_USER_JOINED then
      match rest with
      | _ :: _ :: _ :: len :: u =>
          decide (MAX_USERNAME_LENGTH < len) || !isValidUtf8 (u.take len)
      | _ => false
    else if t = MSG_USER_LEFT then decide (rest.length + 1 ≠ 4)
    else if t = MSG_PRESENCE_UPDATE then decide (rest.length + 1 ≠ 4)
    else if t = MSG_HEARTBEAT then decide (rest.length + 1 ≠ 1)
    else true

/-- Claim C9: `decode` returns an error on every input whose tag is a
fixed-size variant with the wrong exact length, whose tag is a variable-size
variant carrying an over-long or non-UTF-8 username, or whose tag is outside
0x01..=0x08. -/
theorem decode_rejects_malformed (data : List ℕ) (h : badInput data = true) :
    isErr (BinaryMessage.decode data) = true := by
  cases data with
  | nil => exact absurd h (by decide)
  | cons t rest =>
    simp only [badInput] at h
    simp only [BinaryMessage.decode]
    by_cases h1 : t = MSG_CURSOR_UPDATE
    · rw [if_pos h1] at h ⊢
      rw [if_pos (of_decide_eq_true h)]
      rfl
    · rw [if_neg h1] at h ⊢
      by_cases h2 : t = MSG_CURSOR_BROADCAST
      · rw [if_pos h2] at h ⊢
        rw [if_pos (of_decide_eq_true h)]
        rfl
      · rw [if_neg h2] at h ⊢
        by_cases h3 : t = MSG_JOIN
        · rw [if_pos h3] at h ⊢
          rcases rest with _ | ⟨b1, _ | ⟨b2, _ | ⟨len, u⟩⟩⟩
          · exact absurd h (Bool.false_ne_true)
          · exact absurd h (Bool.false_ne_true)
          · exact absurd h (Bool.false_ne_true)
          · replace h : (decide (MAX_USERNAME_LENGTH < len) ||
                !isValidUtf8 (u.take len)) = true := h
            rw [if_neg (by simp only [List.length_cons]; omega)]
            simp only [read_u16, read_string, read_u8, Except.instMonad,
              Except.bind, Bind.bind]
            by_cases h32 : MAX_USERNAME_LENGTH < len
            · rw [if_pos h32]
              rfl
            · rw [decide_eq_false h32, Bool.false_or] at h
              have hv : isValidUtf8 (u.take len) = false := by
                cases hcase : isValidUtf8 (u.take len) with
                | false => rfl
                | true => rw [hcase] at h; exact absurd h (by decide)
              rw [if_neg h32]
              by_cases hul : u.length < len
              · rw [if_pos hul]
                rfl
              · rw [if_neg hul, if_neg (by simp [hv])]
                rfl
        · rw [if_neg h3] at h ⊢
          by_cases h4 : t = MSG_LEAVE
          · rw [if_pos h4] at h ⊢
            rw [if_pos (of_decide_eq_true h)]
            rfl
          · rw [if_neg h4] at h ⊢
            by_cases h5 : t = MSG_USER_JOINED
            · rw [if_pos h5] at h ⊢
              rcases rest with _ | ⟨b1, _ | ⟨b2, _ | ⟨uid, _ | ⟨len, u⟩⟩⟩⟩
              · exact absurd h (Bool.false_ne_true)
              · exact absurd h (Bool.false_ne_true)
              · exact absurd h (Bool.false_ne_true)
              · exact absurd h (Bool.false_ne_true)
              · replace h : (decide (MAX_USERNAME_LENGTH < len) ||
                    !isValidUtf8 (u.take len)) = true := h
                by_cases hlen8 : (b1 :: b2 :: uid :: len :: u).length + 1 < 8
                · rw [if_pos hlen8]
                  rfl
                · rw [if_neg hlen8]
                  simp only [read_u16, read_u8, read_string, read_color,
                    Except.instMonad, Except.bind, Bind.bind]
                  by_cases h32 : MAX_USERNAME_LENGTH < len
                  · rw [if_pos h32]
                    rfl
                  · rw [decide_eq_false h32, Bool.false_or] at h
                    have hv : isValidUtf8 (u.take len) = false := by
                      cases hcase : isValidUtf8 (u.take len) with
                      | false => rfl
                      | true => rw [hcase] at h; exact absurd h (by decide)
                    rw [if_neg h32]
                    by_cases hul : u.length < len
                    · rw [if_pos hul]
                      rfl
                    · rw [if_neg hul, if_neg (by simp [hv])]
                      rfl
            · rw [if_neg h5] at h ⊢
              by_cases h6 : t = MSG_USER_LEFT
              · rw [if_pos h6] at h ⊢
                rw [if_pos (of_decide_eq_true h)]
                rfl
              · rw [if_neg h6] at h ⊢
                by_cases h7 : t = MSG_PRESENCE_UPDATE
                · rw [if_pos h7] at h ⊢
                  rw [if_pos (of_decide_eq_true h)]
                  rfl
                · rw [if_neg h7] at h ⊢
                  by_cases h8 : t = MSG_HEARTBEAT
                  · rw [if_pos h8] at h ⊢
                    rw [if_pos (of_decide_eq_true h)]
                    rfl
                  · rw [if_neg h8]
                    rfl

theorem decode_rejects_malformed_witness :
    badInput [1, 0] = true ∧ isErr (BinaryMessage.decode [1, 0]) = true :=
  ⟨by decide, decode_rejects_malformed [1, 0] (by decide)⟩

/-- Helper: the board channel of any board differs from the global channel at
byte 9 ('b' vs 'g'), so no board channel is ever in the listener's
subscription set. -/
theorem board_channel_ne_global (b : ℕ) : board_channel b ≠ global_channel := by
  intro h
  have hd : ("presence:board:" ++ toString b).data = "presence:global".data :=
    congrArg String.data h
  rw [String.data_append] at hd
  have h9 := congrArg (fun l => l[9]?) hd
  simp only [List.getElem?_append] at h9
  rw [if_pos (by decide)] at h9
  exact absurd h9 (by decide)

/-- Claim C2: cross-instance delivery of board events is broken.  A Join on
board 100 emits a Redis publish on the board channel
`presence:board:100` (first output of the handler), yet the listener
subscribes only to `presence:global`: no board channel is ever in the
subscription set, so an instance hosting a member of board `b` never
receives messages published to `presence:board:<b>`. -/
theorem cross_instance_delivery_broken :
    ((handle_join (ConnectionManager.connect ⟨∅, [], []⟩ 5) 5 100 [65] (1, 2, 3)).2.head? =
      some (Output.publish (board_channel 100) (.userJoined 100 0 [65] (1, 2, 3)))) ∧
    ∀ b : ℕ, receives start_listener_channels (board_channel b) = false := by
  refine ⟨by decide, fun b => ?_⟩
  have hne : (board_channel b == global_channel) = false :=
    beq_eq_false_iff_ne.mpr (board_channel_ne_global b)
  simp [receives, start_listener_channels, List.contains_cons, List.contains_nil, hne]
  exact board_channel_ne_global b

theorem coordChunk0 : coordCheckRange 13 0 8192 = true := by decide!

theorem coordChunk1 : coordCheckRange 13 8192 8192 = true := by decide!

theorem coordChunk2 : coordCheckRange 13 16384 8192 = true := by decide!

theorem coordChunk3 : coordCheckRange 13 24576 8192 = true := by decide!

theorem coordChunk4 : coordCheckRange 13 32768 8192 = true := by decide!

theorem coordChunk5 : coordCheckRange 13 40960 8192 = true := by decide!

theorem coordChunk6 : coordCheckRange 13 49152 8192 = true := by decide!

theorem coordChunk7 : coordCheckRange 13 57344 8192 = true := by decide!

/-- C4: the u16 → f32 → u16 round trip through `denormalize_coord` and then
`normalize_coord` is the identity on the whole `u16` range, verified
exhaustively on all 65536 values with exact binary32 semantics. -/
theorem normalize_denormalize_roundtrip (n : ℕ) (h : n < 65536) :
    normalize_coord (denormalize_coord n) = n := by
  have hsz : (8192 : ℕ) ≤ 2 ^ 13 := by norm_num
  have hok : coordRoundtripOK n = true := by
    rcases Nat.lt_or_ge n 8192 with h0 | h0
    · exact coordCheckRange_cover 13 0 8192 n hsz coordChunk0 (by omega) (by omega)
    rcases Nat.lt_or_ge n 16384 with h1 | h1
    · exact coordCheckRange_cover 13 8192 8192 n hsz coordChunk1 (by omega) (by omega)
    rcases Nat.lt_or_ge n 24576 with h2 | h2
    · exact coordCheckRange_cover 13 16384 8192 n hsz coordChunk2 (by omega) (by omega)
    rcases Nat.lt_or_ge n 32768 with h3 | h3
    · exact coordCheckRange_cover 13 24576 8192 n hsz coordChunk3 (by omega) (by omega)
    rcases Nat.lt_or_ge n 40960 with h4 | h4
    · exact coordCheckRange_cover 13 32768 8192 n hsz coordChunk4 (by omega) (by omega)
    rcases Nat.lt_or_ge n 49152 with h5 | h5
    · exact coordCheckRange_cover 13 40960 8192 n hsz coordChunk5 (by omega) (by omega)
    rcases Nat.lt_or_ge n 57344 with h6 | h6
    · exact coordCheckRange_cover 13 49152 8192 n hsz coordChunk6 (by omega) (by omega)
    · exact coordCheckRange_cover 13 57344 8192 n hsz coordChunk7 (by omega) (by omega)
  unfold coordRoundtripOK at hok
  exact Nat.eq_of_beq_eq_true hok

/-- C4 witness: the round trip at `32767` (the `0.5` lattice point). -/
theorem normalize_denormalize_roundtrip_witness :
    32767 < 65536 ∧ normalize_coord (denormalize_coord 32767) = 32767 :=
  ⟨by decide, normalize_denormalize_roundtrip 32767 (by decide)⟩

end Fluxboard
